import Mathlib

/-!
Verification of the S&P 500 one-year-return CLI (`src/main.py`) against its
natural-language specification.

The program is embedded shallowly:

* prices are exact rationals (`ℚ`), standing for the 64-bit floats of the
  source; every arithmetic step of the source is a single exact operation on
  doubles-as-rationals, so the formulas carry over verbatim;
* the pandas series returned by the data provider are embedded as lists of
  `Bar` (date string plus closing price), oldest first, matching
  `sp500.history(...)`;
* `print` calls are collected into a `List String`, one element per call
  (the trailing newline that `print` appends is implicit; embedded `\n`
  characters inside an f-string stay inside the element);
* Python `f"{x:.2f}"` / `f"{x:,.2f}"` formatting of a double is embedded as
  correctly-rounded (round-half-to-even) fixed-point rendering of the exact
  value, which is precisely what CPython does to the exact binary value of
  the double;
* `json.dumps(data, indent=2)` is embedded as the literal layout CPython
  produces for a four-entry dict (insertion order kept), with float values
  rendered as terminating decimals (every double is a terminating decimal;
  `repr` of a double is the shortest decimal that parses back to it, so the
  embedding keeps the defining property: the printed decimal denotes the
  field's exact value).
-/

/-! ## Decimal digit machinery -/

/-- Big-endian decimal digits of `n`, empty for `0`; `fuel` bounds recursion
depth and any `fuel ≥ n` is enough. -/
def natDigitsAux : Nat → Nat → List Nat
  | 0, _ => []
  | fuel + 1, n => if n = 0 then [] else natDigitsAux fuel (n / 10) ++ [n % 10]

/-- Big-endian decimal digits of `n` (`[0]` for `0`). -/
def natDigits (n : Nat) : List Nat :=
  if n = 0 then [0] else natDigitsAux n n

/-- The character for one decimal digit. -/
def digitCh : Nat → Char
  | 0 => '0' | 1 => '1' | 2 => '2' | 3 => '3' | 4 => '4'
  | 5 => '5' | 6 => '6' | 7 => '7' | 8 => '8' | _ => '9'

/-- Decimal rendering of a natural number. -/
def natRepr (n : Nat) : String :=
  String.mk ((natDigits n).map digitCh)

/-- Exactly-two-digit rendering of `n < 100` (zero padded on the left). -/
def pad2 (n : Nat) : String :=
  if n < 10 then "0" ++ natRepr n else natRepr n

/-- `n` rendered with exactly `k` digits, zero padded on the left
(assuming `n < 10 ^ k`). -/
def padZeros (k n : Nat) : String :=
  String.mk (List.replicate (k - (natDigits n).length) '0' ++ (natDigits n).map digitCh)

/-- Insert a thousands separator after every third character of a
little-endian digit list. -/
def group3 : List Char → List Char
  | a :: b :: c :: d :: rest => a :: b :: c :: ',' :: group3 (d :: rest)
  | l => l

/-- Big-endian digit characters with thousands separators, CPython's `{:,}`. -/
def commaDigits (ds : List Char) : List Char :=
  (group3 ds.reverse).reverse

/-- `|q| * 100` rounded to the nearest integer, ties to even: the exact
rounding CPython performs for `f"{x:.2f}"` on the absolute value of a double.
Works on numerator and denominator so that the kernel can evaluate it. -/
def round2HalfEven (q : ℚ) : Nat :=
  let t : Nat := 100 * q.num.natAbs
  let d : Nat := q.den
  let f : Nat := t / d
  let r : Nat := t % d
  if 2 * r < d then f
  else if d < 2 * r then f + 1
  else if f % 2 = 0 then f else f + 1

/-- Embedding of CPython `f"{x:.2f}"`: sign of the double, then the rounded
absolute value with exactly two digits after the decimal point. -/
def fixed2 (q : ℚ) : String :=
  let m := round2HalfEven q
  (if q.num < 0 then "-" else "") ++ natRepr (m / 100) ++ "." ++ pad2 (m % 100)

/-! ## The data model of the program (`src/main.py`) -/

/-- One daily bar of the provider's series: the date and the closing price
(`historical_data['Close']` indexed by `historical_data.index`). -/
structure Bar where
  date : String
  close : ℚ

/-- The dict built by `get_sp500_year_return` on success. -/
structure ReturnResult where
  current_price : ℚ
  year_ago_price : ℚ
  year_return : ℚ
  date : String

/-- The failure taxonomy of the fetcher (spec §4.1/§7): empty current-data
series, a historical series of fewer than two points, and the catch-all for
a missing or failing provider (`ImportError` / any other exception). -/
inductive FetchError where
  | noCurrentData
  | insufficientHistory
  | providerUnavailable

/-- The message each failure branch of `get_sp500_year_return` prints. -/
def fetchErrorMessage : FetchError → String
  | .noCurrentData => "Error: Could not fetch current S&P 500 data"
  | .insufficientHistory => "Error: Insufficient historical data"
  | .providerUnavailable => "Error: yfinance not installed. Run: pip3 install yfinance"

/-- Embedding of `get_sp500_year_return` (src/main.py:10-51), as a function of
the two series the provider returns: the `period='1d'` series and the
`period='1y'` series. An empty current series fails first
(`current_data.empty`); then a historical series with fewer than two points
fails (`len(historical_data) < 2`); otherwise `current_price` is the last
close of the current series, `year_ago_price` the first close of the
historical series, and the return is `((current - year_ago) / year_ago) * 100`
with the date of the last current bar. -/
def get_sp500_year_return : List Bar → List Bar → Except FetchError ReturnResult
  | [], _ => .error .noCurrentData
  | c :: cs, h :: _ :: _ =>
    let lastBar := (c :: cs).getLast (List.cons_ne_nil c cs)
    let current_price := lastBar.close
    let year_ago_price := h.close
    .ok { current_price := current_price
          year_ago_price := year_ago_price
          year_return := (current_price - year_ago_price) / year_ago_price * 100
          date := lastBar.date }
  | _ :: _, _ => .error .insufficientHistory

/-! ## The Presenter (`display_return`, `format_price`, `display_json`) -/

/-- ANSI bright green, `'\033[92m'`. -/
def ansiGreen : String := "\x1b[92m"

/-- ANSI bright red, `'\033[91m'`. -/
def ansiRed : String := "\x1b[91m"

/-- ANSI bold, `'\033[1m'`. -/
def ansiBold : String := "\x1b[1m"

/-- ANSI reset, `'\033[0m'`. -/
def ansiReset : String := "\x1b[0m"

/-- The border line `'=' * 50`. -/
def eqLine : String := String.mk (List.replicate 50 '=')

/-- Embedding of `format_price` (src/main.py:54-56), CPython `f"${price:,.2f}"`:
dollar sign, sign of the double, thousands-separated integer part of the
rounded absolute value, and exactly two decimals. -/
def format_price (price : ℚ) : String :=
  let m := round2HalfEven price
  "$" ++ (if price.num < 0 then "-" else "")
    ++ String.mk (commaDigits ((natDigits (m / 100)).map digitCh))
    ++ "." ++ pad2 (m % 100)

/-- Embedding of `display_return` (src/main.py:59-101). `stdout_isatty` is the
value of `sys.stdout.isatty()`. Returns the list of `print` calls in order;
`data is None` prints nothing. -/
def display_return (data : Option ReturnResult) (colorize : Bool) (stdout_isatty : Bool) :
    List String :=
  match data with
  | none => []
  | some data =>
    let useColor := colorize && stdout_isatty
    let GREEN := if useColor then ansiGreen else ""
    let RED := if useColor then ansiRed else ""
    let BOLD := if useColor then ansiBold else ""
    let RESET := if useColor then ansiReset else ""
    let return_value := data.year_return
    let color := if 0 ≤ return_value then GREEN else RED
    let sign := if 0 ≤ return_value then "+" else ""
    [ "\n" ++ BOLD ++ eqLine ++ RESET,
      BOLD ++ "       S&P 500 ONE-YEAR RETURN" ++ RESET,
      BOLD ++ eqLine ++ RESET ++ "\n",
      BOLD ++ color ++ "  " ++ sign ++ fixed2 return_value ++ "%" ++ RESET,
      "",
      BOLD ++ "Details:" ++ RESET,
      "  Current Price:      " ++ format_price data.current_price,
      "  Price 1 Year Ago:   " ++ format_price data.year_ago_price,
      "  As of:              " ++ data.date,
      "\n" ++ BOLD ++ eqLine ++ RESET ++ "\n" ]

/-! ## JSON rendering

`json.dumps(data, indent=2)` on the four-entry dict produces, in insertion
order:

    \x7b
      "current_price": <float>,
      "year_ago_price": <float>,
      "year_return": <float>,
      "date": "<string>"
    \x7d

Floats are rendered by `repr`, the shortest terminating decimal that parses
back to the same double; the embedding renders the exact value of the
rational as a terminating decimal (defined whenever the value has one). -/

/-- How often `p` divides `n` (`fuel`-bounded; `fuel ≥ n` always suffices). -/
def factorCountAux : Nat → Nat → Nat → Nat
  | 0, _, _ => 0
  | fuel + 1, p, n =>
    if 2 ≤ p ∧ p ∣ n ∧ n ≠ 0 then factorCountAux fuel p (n / p) + 1 else 0

/-- The multiplicity of `p` in `n`. -/
def factorCount (p n : Nat) : Nat := factorCountAux n p n

/-- The number of decimal digits needed after the point for `q`
(at least one, as CPython always prints one for a float). -/
def numExp (q : ℚ) : Nat :=
  max (max (factorCount 2 q.den) (factorCount 5 q.den)) 1

/-- `q` has a terminating decimal expansion. Every IEEE double does (its
denominator is a power of two), so this is an invariant of every float the
program handles, made explicit as a hypothesis of the embedding. -/
def TerminatingDecimal (q : ℚ) : Prop := q.den ∣ 10 ^ numExp q

instance (q : ℚ) : Decidable (TerminatingDecimal q) := by
  unfold TerminatingDecimal; infer_instance

/-- The terminating decimal rendering of `q`: sign, integer part, point, and
exactly `numExp q` fractional digits. This is the embedding of CPython float
`repr` inside `json.dumps`. -/
def numRepr (q : ℚ) : String :=
  let k := numExp q
  let m := q.num.natAbs * 10 ^ k / q.den
  (if q.num < 0 then "-" else "") ++ natRepr (m / 10 ^ k) ++ "." ++ padZeros k (m % 10 ^ k)

/-- The opening of the dumped object, up to the first value. -/
def jsonHead : String := "\x7b\n  \"current_price\": "

/-- The separator between the first and second entry. -/
def jsonKey2 : String := "\n  \"year_ago_price\": "

/-- The separator between the second and third entry. -/
def jsonKey3 : String := "\n  \"year_return\": "

/-- The separator between the third and fourth entry (the date value is a
JSON string, so it opens a quote). -/
def jsonKey4 : String := "\n  \"date\": \""

/-- The text `json.dumps(data, indent=2)` yields for a result dict. -/
def jsonDump (d : ReturnResult) : String :=
  jsonHead ++ numRepr d.current_price ++ ","
    ++ jsonKey2 ++ numRepr d.year_ago_price ++ ","
    ++ jsonKey3 ++ numRepr d.year_return ++ ","
    ++ jsonKey4 ++ d.date ++ "\"\n\x7d"

/-- Embedding of `display_json` (src/main.py:104-108): one `print` of the
dump when a result exists, nothing otherwise. -/
def display_json : Option ReturnResult → List String
  | none => []
  | some d => [jsonDump d]

/-! ## The CLI entry point (`main`, src/main.py:111-148) -/

/-- Embedding of `main`: everything printed, paired with the process exit
status. `jsonFlag` and `noColorFlag` are the parsed `--json` / `--no-color`
arguments, `stdout_isatty` the terminal status of stdout. A failed fetch has
already printed its message inside `get_sp500_year_return`; `main` then calls
`sys.exit(1)`. A successful fetch renders and falls off the end of `main`
(exit status 0). -/
def mainRun (current_data historical_data : List Bar)
    (jsonFlag noColorFlag stdout_isatty : Bool) : List String × Nat :=
  match get_sp500_year_return current_data historical_data with
  | .error e => ([fetchErrorMessage e], 1)
  | .ok data =>
    ((if jsonFlag then display_json (some data)
      else display_return (some data) (!noColorFlag) stdout_isatty), 0)

/-! ## A JSON reader for the round-trip property -/

/-- Strip an exact expected left part, returning the remainder. -/
def dropStart : List Char → List Char → Option (List Char)
  | [], cs => some cs
  | _ :: _, [] => none
  | p :: ps, c :: cs => if c = p then dropStart ps cs else none

/-- Split at the first occurrence of `stop` (which is consumed). -/
def splitAt1 (stop : Char) : List Char → Option (List Char × List Char)
  | [] => none
  | c :: cs =>
    if c = stop then some ([], cs)
    else (splitAt1 stop cs).map (fun p => (c :: p.1, p.2))

/-- Read a nonempty all-digit string as a natural number. -/
def parseNat (cs : List Char) : Option Nat :=
  if cs.isEmpty then none
  else if cs.all (fun c => c.isDigit) then
    some (cs.foldl (fun a c => 10 * a + (c.toNat - 48)) 0)
  else none

/-- Read an unsigned decimal `digits.digits` as the exact rational it
denotes. -/
def parseNumNN (cs : List Char) : Option ℚ := do
  let (ip, fp) ← splitAt1 '.' cs
  let i ← parseNat ip
  let f ← parseNat fp
  pure ((i : ℚ) + (f : ℚ) / (10 : ℚ) ^ fp.length)

/-- Read an optionally signed decimal number. -/
def parseNum (cs : List Char) : Option ℚ :=
  match cs with
  | [] => none
  | c :: rest => if c = '-' then (parseNumNN rest).map (fun v => -v) else parseNumNN (c :: rest)

/-- Read back the four fields of the dumped JSON object: the object layout is
fixed (2-space indentation, the four keys in order), the three numbers are
read as exact rationals and the date as the quoted string. -/
def parseJson (s : String) : Option (ℚ × ℚ × ℚ × String) := do
  let cs ← dropStart jsonHead.data s.data
  let (n1, cs) ← splitAt1 ',' cs
  let q1 ← parseNum n1
  let cs ← dropStart jsonKey2.data cs
  let (n2, cs) ← splitAt1 ',' cs
  let q2 ← parseNum n2
  let cs ← dropStart jsonKey3.data cs
  let (n3, cs) ← splitAt1 ',' cs
  let q3 ← parseNum n3
  let cs ← dropStart jsonKey4.data cs
  let (ds, cs) ← splitAt1 '"' cs
  if cs = ['\n', '}'] then some (q1, q2, q3, String.mk ds) else none

/-! ## Claims about the fetcher and the entry point -/

/-- C1: for every successful fetch, the computed `year_return` equals
`(current_price - year_ago_price) / year_ago_price * 100` exactly (the
embedding computes on exact values; the source applies this single formula
with no rounding at the fetch stage). -/
theorem year_return_formula (current_data historical_data : List Bar) (r : ReturnResult)
    (h : get_sp500_year_return current_data historical_data = .ok r)
    (hc : 0 < r.current_price) (hy : 0 < r.year_ago_price) :
    r.year_return = (r.current_price - r.year_ago_price) / r.year_ago_price * 100 := by
  rcases current_data with _ | ⟨c, cs⟩
  · simp [get_sp500_year_return] at h
  rcases historical_data with _ | ⟨h1, _ | ⟨h2, hs⟩⟩
  · simp [get_sp500_year_return] at h
  · simp [get_sp500_year_return] at h
  · simp only [get_sp500_year_return] at h
    injection h with h
    subst h
    rfl

theorem year_return_formula_witness :
    (⟨5000, 4500, ((5000 : ℚ) - 4500) / 4500 * 100, "2025-10-10"⟩ : ReturnResult).year_return
      = (((5000 : ℚ)) - 4500) / 4500 * 100 :=
  year_return_formula [⟨"2025-10-10", 5000⟩] [⟨"2024-10-11", 4500⟩, ⟨"2024-10-14", 4600⟩]
    ⟨5000, 4500, ((5000 : ℚ) - 4500) / 4500 * 100, "2025-10-10"⟩ rfl (by decide) (by decide)

/-- C2: a successful fetch renders (JSON or text, as selected) and the
process exits with status 0; a failed fetch prints only the fetcher's error
message — neither Presenter is invoked — and the process exits with
status 1. -/
theorem mainRun_exit_status (current_data historical_data : List Bar)
    (jsonFlag noColorFlag stdout_isatty : Bool) :
    (∀ r, get_sp500_year_return current_data historical_data = .ok r →
        mainRun current_data historical_data jsonFlag noColorFlag stdout_isatty =
          ((if jsonFlag then display_json (some r)
            else display_return (some r) (!noColorFlag) stdout_isatty), 0)) ∧
    (∀ e, get_sp500_year_return current_data historical_data = .error e →
        mainRun current_data historical_data jsonFlag noColorFlag stdout_isatty =
          ([fetchErrorMessage e], 1)) := by
  constructor
  · intro r hr
    simp [mainRun, hr]
  · intro e he
    simp [mainRun, he]

theorem mainRun_exit_status_witness :
    mainRun [] [] false false false = ([fetchErrorMessage .noCurrentData], 1) :=
  (mainRun_exit_status [] [] false false false).2 .noCurrentData rfl

/-- C3: with a nonempty current series, a historical series of fewer than
two points makes the fetch fail with `insufficientHistory`, and one of two
or more points makes the success path proceed with the first (oldest)
historical close as `year_ago_price`. -/
theorem history_length_gate (current_data historical_data : List Bar)
    (hc : current_data ≠ []) :
    (historical_data.length < 2 →
        get_sp500_year_return current_data historical_data = .error .insufficientHistory) ∧
    (2 ≤ historical_data.length →
        ∃ r b, get_sp500_year_return current_data historical_data = .ok r ∧
          historical_data.head? = some b ∧ r.year_ago_price = b.close) := by
  rcases current_data with _ | ⟨c, cs⟩
  · exact absurd rfl hc
  constructor
  · intro hlen
    rcases historical_data with _ | ⟨h1, _ | ⟨h2, hs⟩⟩
    · rfl
    · rfl
    · simp at hlen; omega
  · intro hlen
    rcases historical_data with _ | ⟨h1, _ | ⟨h2, hs⟩⟩
    · simp at hlen
    · simp at hlen
    · exact ⟨_, h1, rfl, rfl, rfl⟩

theorem history_length_gate_witness :
    get_sp500_year_return [⟨"2025-10-10", 5000⟩] [⟨"2024-10-11", 4500⟩] =
      .error .insufficientHistory :=
  (history_length_gate [⟨"2025-10-10", 5000⟩] [⟨"2024-10-11", 4500⟩]
    (List.cons_ne_nil _ _)).1 (by decide)

/-- C4: an empty current-data series makes the fetch fail with
`noCurrentData`; the run prints exactly the descriptive error message — no
result fields, no text body, no JSON — and exits with status 1. -/
theorem empty_current_series (historical_data : List Bar)
    (jsonFlag noColorFlag stdout_isatty : Bool) :
    get_sp500_year_return [] historical_data = .error .noCurrentData ∧
    fetchErrorMessage .noCurrentData = "Error: Could not fetch current S&P 500 data" ∧
    mainRun [] historical_data jsonFlag noColorFlag stdout_isatty =
      ([fetchErrorMessage .noCurrentData], 1) := by
  refine ⟨rfl, rfl, ?_⟩
  simp [mainRun, get_sp500_year_return]

/-- C9: the text Presenter called with no result prints nothing and returns,
for either value of the colorize flag and either terminal status. -/
theorem display_none_prints_nothing (colorize stdout_isatty : Bool) :
    display_return none colorize stdout_isatty = [] := rfl

/-- C10: rendering is deterministic: runs of the text Presenter on the same
result, colorize flag and TTY status produce identical output, and runs of
the JSON Presenter on the same result produce identical output (both are
pure functions of exactly these inputs in the embedding). -/
theorem render_deterministic (d₁ d₂ : Option ReturnResult) (c₁ c₂ t₁ t₂ : Bool)
    (hd : d₁ = d₂) (hc : c₁ = c₂) (ht : t₁ = t₂) :
    display_return d₁ c₁ t₁ = display_return d₂ c₂ t₂ ∧
    display_json d₁ = display_json d₂ := by
  subst hd; subst hc; subst ht
  exact ⟨rfl, rfl⟩

theorem render_deterministic_witness :
    display_return none true true = display_return none true true ∧
    display_json none = display_json none :=
  render_deterministic none none true true true true rfl rfl rfl

/-! ## Digit lemmas -/

theorem natDigitsAux_lt10 : ∀ fuel n, ∀ d ∈ natDigitsAux fuel n, d < 10 := by
  intro fuel
  induction fuel with
  | zero => intro n d hd; simp [natDigitsAux] at hd
  | succ f ih =>
    intro n d hd
    by_cases hn : n = 0
    · simp [natDigitsAux, hn] at hd
    · simp only [natDigitsAux, if_neg hn, List.mem_append, List.mem_singleton] at hd
      rcases hd with hd | hd
      · exact ih _ d hd
      · subst hd; exact Nat.mod_lt _ (by omega)

theorem natDigits_lt10 (n : Nat) : ∀ d ∈ natDigits n, d < 10 := by
  intro d hd
  unfold natDigits at hd
  by_cases hn : n = 0
  · simp [hn] at hd; omega
  · exact natDigitsAux_lt10 n n d (by simpa [hn] using hd)

theorem natDigits_ne_nil (n : Nat) : natDigits n ≠ [] := by
  unfold natDigits
  by_cases hn : n = 0
  · simp [hn]
  · obtain ⟨m, rfl⟩ := Nat.exists_eq_succ_of_ne_zero hn
    simp [natDigitsAux, hn]

theorem digitCh_isDigit (d : Nat) : (digitCh d).isDigit = true := by
  rcases d with _|_|_|_|_|_|_|_|_|d <;> rfl

theorem digitCh_toNat (d : Nat) (h : d < 10) : (digitCh d).toNat - 48 = d := by
  interval_cases d <;> rfl

theorem ne_of_isDigit {c x : Char} (h : c.isDigit = true) (hx : x.isDigit = false) :
    c ≠ x := by
  intro e; subst e; rw [h] at hx; cases hx

theorem foldl_natDigitsAux :
    ∀ fuel n s, n ≤ fuel →
      (natDigitsAux fuel n).foldl (fun a d => 10 * a + d) s =
        s * 10 ^ (natDigitsAux fuel n).length + n := by
  intro fuel
  induction fuel with
  | zero =>
    intro n s hn
    interval_cases n
    simp [natDigitsAux]
  | succ f ih =>
    intro n s hn
    by_cases h0 : n = 0
    · simp [natDigitsAux, h0]
    · have hrec : n / 10 ≤ f := by omega
      simp only [natDigitsAux, if_neg h0, List.foldl_append, List.length_append,
        List.foldl_cons, List.foldl_nil, List.length_cons, List.length_nil]
      rw [ih (n / 10) s hrec]
      have : 10 * (s * 10 ^ (natDigitsAux f (n / 10)).length + n / 10) + n % 10 =
          s * (10 ^ (natDigitsAux f (n / 10)).length * 10) + (10 * (n / 10) + n % 10) := by
        ring
      rw [this, Nat.div_add_mod]
      simp [pow_succ]

theorem foldl_map_digitCh (ds : List Nat) (s : Nat) (h : ∀ d ∈ ds, d < 10) :
    (ds.map digitCh).foldl (fun a c => 10 * a + (c.toNat - 48)) s =
      ds.foldl (fun a d => 10 * a + d) s := by
  induction ds generalizing s with
  | nil => rfl
  | cons d ds ih =>
    simp only [List.map_cons, List.foldl_cons]
    rw [digitCh_toNat d (h d (List.mem_cons_self d ds))]
    exact ih _ (fun x hx => h x (List.mem_cons_of_mem d hx))

theorem parseNat_digits (n : Nat) : parseNat ((natDigits n).map digitCh) = some n := by
  unfold parseNat
  rw [if_neg, if_pos]
  · congr 1
    rw [foldl_map_digitCh _ _ (natDigits_lt10 n)]
    unfold natDigits
    by_cases hn : n = 0
    · simp [hn]
    · rw [if_neg hn, foldl_natDigitsAux n n 0 le_rfl]; ring
  · rw [List.all_eq_true]
    intro c hc
    obtain ⟨d, _, rfl⟩ := List.mem_map.mp hc
    exact digitCh_isDigit d
  · simp [List.isEmpty_iff, natDigits_ne_nil n]

theorem foldl_zeros (z : Nat) (l : List Char) :
    (List.replicate z '0' ++ l).foldl (fun a c => 10 * a + (c.toNat - 48)) 0 =
      l.foldl (fun a c => 10 * a + (c.toNat - 48)) 0 := by
  induction z with
  | zero => rfl
  | succ m ih => simpa [List.replicate_succ] using ih

theorem natDigitsAux_length_le :
    ∀ fuel n k, n ≤ fuel → n < 10 ^ k → (natDigitsAux fuel n).length ≤ k := by
  intro fuel
  induction fuel with
  | zero => intro n k _ _; simp [natDigitsAux]
  | succ f ih =>
    intro n k hn hk
    by_cases h0 : n = 0
    · simp [natDigitsAux, h0]
    · have hk1 : 1 ≤ k := by
        by_contra hc
        interval_cases k
        · simp at hk; omega
      obtain ⟨k1, rfl⟩ := Nat.exists_eq_add_of_le hk1
      simp only [natDigitsAux, if_neg h0, List.length_append, List.length_cons,
        List.length_nil]
      have hdiv : n / 10 < 10 ^ k1 := by
        rw [Nat.div_lt_iff_lt_mul (by omega)]
        calc n < 10 ^ (1 + k1) := hk
        _ = 10 ^ k1 * 10 := by rw [Nat.add_comm, pow_succ]
      have := ih (n / 10) k1 (by omega) hdiv
      omega

theorem natDigits_length_le (n k : Nat) (hn : n < 10 ^ k) (hk : 1 ≤ k) :
    (natDigits n).length ≤ k := by
  unfold natDigits
  by_cases h0 : n = 0
  · simp [h0]; omega
  · rw [if_neg h0]; exact natDigitsAux_length_le n n k le_rfl hn

theorem padZeros_length (k n : Nat) (hn : n < 10 ^ k) (hk : 1 ≤ k) :
    (padZeros k n).data.length = k := by
  unfold padZeros
  have := natDigits_length_le n k hn hk
  show (List.replicate (k - (natDigits n).length) '0' ++ (natDigits n).map digitCh).length = k
  simp only [List.length_append, List.length_replicate, List.length_map]
  omega

theorem parseNat_padZeros (k n : Nat) :
    parseNat (padZeros k n).data = some n := by
  unfold padZeros parseNat
  rw [if_neg, if_pos]
  · congr 1
    rw [foldl_zeros]
    rw [foldl_map_digitCh _ _ (natDigits_lt10 n)]
    unfold natDigits
    by_cases h0 : n = 0
    · simp [h0]
    · rw [if_neg h0, foldl_natDigitsAux n n 0 le_rfl]; ring
  · rw [List.all_eq_true]
    intro c hc
    rcases List.mem_append.mp hc with hc | hc
    · rw [List.eq_of_mem_replicate hc]; rfl
    · obtain ⟨d, _, rfl⟩ := List.mem_map.mp hc
      exact digitCh_isDigit d
  · have h1 := natDigits_ne_nil n
    simp only [List.isEmpty_iff, List.append_eq_nil]
    intro ⟨_, h2⟩
    exact h1 (List.map_eq_nil_iff.mp h2)

theorem dropStart_append : ∀ p rest : List Char, dropStart p (p ++ rest) = some rest := by
  intro p
  induction p with
  | nil => intro rest; rfl
  | cons c cs ih => intro rest; simp [dropStart, ih rest]

theorem splitAt1_append (stop : Char) :
    ∀ xs ys : List Char, stop ∉ xs → splitAt1 stop (xs ++ stop :: ys) = some (xs, ys) := by
  intro xs
  induction xs with
  | nil => intro ys _; simp [splitAt1]
  | cons c cs ih =>
    intro ys hstop
    have hc : c ≠ stop := fun e => hstop (e ▸ List.mem_cons_self c cs)
    have ihy := ih ys (fun h => hstop (List.mem_cons_of_mem c h))
    simp [splitAt1, hc, ihy]

/-! ## Number-rendering round trip -/

theorem numRepr_data (q : ℚ) :
    (numRepr q).data =
      (if q.num < 0 then ['-'] else []) ++
        ((natDigits (q.num.natAbs * 10 ^ numExp q / q.den / 10 ^ numExp q)).map digitCh ++
          '.' :: (padZeros (numExp q) (q.num.natAbs * 10 ^ numExp q / q.den % 10 ^ numExp q)).data) := by
  unfold numRepr natRepr
  by_cases h : q.num < 0 <;>
    simp [h, String.data_append]

theorem one_le_numExp (q : ℚ) : 1 ≤ numExp q := le_max_right _ _

theorem parseNumNN_digits (I F k : Nat) (hk : 1 ≤ k) (hF : F < 10 ^ k) :
    parseNumNN ((natDigits I).map digitCh ++ '.' :: (padZeros k F).data) =
      some ((I : ℚ) + (F : ℚ) / (10 : ℚ) ^ k) := by
  have hnodot : '.' ∉ (natDigits I).map digitCh := by
    intro hmem
    obtain ⟨d, _, hd⟩ := List.mem_map.mp hmem
    have := digitCh_isDigit d
    rw [hd] at this
    exact absurd this (by decide)
  unfold parseNumNN
  rw [splitAt1_append '.' _ _ hnodot]
  simp [parseNat_digits I, parseNat_padZeros k F, padZeros_length k F hF hk]

theorem parseNum_numRepr (q : ℚ) (h : TerminatingDecimal q) :
    parseNum (numRepr q).data = some q := by
  have hk : 1 ≤ numExp q := one_le_numExp q
  have hdvd : q.den ∣ q.num.natAbs * 10 ^ numExp q := Dvd.dvd.mul_left h _
  have hmden : q.num.natAbs * 10 ^ numExp q / q.den * q.den =
      q.num.natAbs * 10 ^ numExp q := Nat.div_mul_cancel hdvd
  have hpow : (0 : ℕ) < 10 ^ numExp q := pow_pos (by norm_num) _
  have hF : q.num.natAbs * 10 ^ numExp q / q.den % 10 ^ numExp q < 10 ^ numExp q :=
    Nat.mod_lt _ hpow
  have hq10 : ((10 : ℚ)) ^ numExp q ≠ 0 := by positivity
  have hqden : ((q.den : ℚ)) ≠ 0 := Nat.cast_ne_zero.mpr q.den_nz
  have key :
      ((q.num.natAbs * 10 ^ numExp q / q.den / 10 ^ numExp q : ℕ) : ℚ) +
          ((q.num.natAbs * 10 ^ numExp q / q.den % 10 ^ numExp q : ℕ) : ℚ) /
            (10 : ℚ) ^ numExp q =
        (q.num.natAbs : ℚ) / (q.den : ℚ) := by
    have hIF : ((10 : ℚ)) ^ numExp q *
          ((q.num.natAbs * 10 ^ numExp q / q.den / 10 ^ numExp q : ℕ) : ℚ) +
          ((q.num.natAbs * 10 ^ numExp q / q.den % 10 ^ numExp q : ℕ) : ℚ) =
        ((q.num.natAbs * 10 ^ numExp q / q.den : ℕ) : ℚ) := by
      exact_mod_cast congrArg (fun x : ℕ => (x : ℚ))
        (Nat.div_add_mod (q.num.natAbs * 10 ^ numExp q / q.den) (10 ^ numExp q))
    have hmd : ((q.num.natAbs * 10 ^ numExp q / q.den : ℕ) : ℚ) * (q.den : ℚ) =
        (q.num.natAbs : ℚ) * (10 : ℚ) ^ numExp q := by
      exact_mod_cast congrArg (fun x : ℕ => (x : ℚ)) hmden
    field_simp
    nlinarith [hIF, hmd]
  rw [numRepr_data q]
  rcases lt_or_le q.num 0 with hneg | hpos
  · rw [if_pos hneg]
    have habs : (q.num.natAbs : ℚ) / (q.den : ℚ) = -q := by
      rw [Int.cast_natAbs, abs_of_neg (by exact_mod_cast hneg)]
      push_cast
      rw [neg_div, Rat.num_div_den]
    simp only [List.singleton_append, parseNum, if_pos rfl]
    rw [parseNumNN_digits _ _ _ hk hF, key]
    simp [habs]
  · rw [if_neg (not_lt.mpr hpos)]
    have habs : (q.num.natAbs : ℚ) / (q.den : ℚ) = q := by
      rw [Int.cast_natAbs, abs_of_nonneg (by exact_mod_cast hpos), Rat.num_div_den]
    obtain ⟨d0, ds, hds⟩ := List.exists_cons_of_ne_nil (natDigits_ne_nil
      (q.num.natAbs * 10 ^ numExp q / q.den / 10 ^ numExp q))
    have hne : digitCh d0 ≠ '-' := ne_of_isDigit (digitCh_isDigit d0) (by decide)
    rw [List.nil_append, hds]
    simp only [List.map_cons, List.cons_append, parseNum, if_neg hne]
    rw [show digitCh d0 :: ((ds.map digitCh) ++ '.' ::
        (padZeros (numExp q) (q.num.natAbs * 10 ^ numExp q / q.den % 10 ^ numExp q)).data) =
      ((d0 :: ds).map digitCh) ++ '.' ::
        (padZeros (numExp q) (q.num.natAbs * 10 ^ numExp q / q.den % 10 ^ numExp q)).data
      from by simp, ← hds]
    rw [parseNumNN_digits _ _ _ hk hF, key, habs]

theorem numRepr_chars (q : ℚ) :
    ∀ c ∈ (numRepr q).data, c.isDigit = true ∨ c = '-' ∨ c = '.' := by
  intro c hc
  rw [numRepr_data] at hc
  rcases List.mem_append.mp hc with hs | hc
  · by_cases h : q.num < 0
    · rw [if_pos h] at hs
      right; left
      simpa using hs
    · rw [if_neg h] at hs
      simp at hs
  · rcases List.mem_append.mp hc with hm | hc
    · obtain ⟨d, _, rfl⟩ := List.mem_map.mp hm
      exact Or.inl (digitCh_isDigit d)
    · rcases List.mem_cons.mp hc with rfl | hp
    

      · right; right; rfl
      · unfold padZeros at hp
        rcases List.mem_append.mp hp with h0 | hm
        · rw [List.eq_of_mem_replicate h0]
          exact Or.inl (by decide)
        · obtain ⟨d, _, rfl⟩ := List.mem_map.mp hm
          exact Or.inl (digitCh_isDigit d)

theorem not_mem_numRepr {x : Char} (hx : x.isDigit = false) (h1 : x ≠ '-') (h2 : x ≠ '.')
    (q : ℚ) : x ∉ (numRepr q).data := by
  intro hmem
  rcases numRepr_chars q x hmem with h | h | h
  · rw [h] at hx; cases hx
  · exact h1 h
  · exact h2 h

theorem splitAt1_append2 (stop : Char) (xs : List Char) (h : stop ∉ xs) (ys : List Char) :
    splitAt1 stop (xs ++ stop :: ys) = some (xs, ys) :=
  splitAt1_append stop xs ys h

theorem mk_data (s : String) : String.mk s.data = s := rfl

theorem jsonDump_data (d : ReturnResult) :
    (jsonDump d).data =
      jsonHead.data ++ ((numRepr d.current_price).data ++ ',' ::
        (jsonKey2.data ++ ((numRepr d.year_ago_price).data ++ ',' ::
          (jsonKey3.data ++ ((numRepr d.year_return).data ++ ',' ::
            (jsonKey4.data ++ (d.date.data ++ '"' :: ['\n', '}']))))))) := by
  have hcomma : ("," : String).data = [','] := rfl
  have htail : ("\"\n\x7d" : String).data = ['"', '\n', '}'] := rfl
  unfold jsonDump
  simp [String.data_append, hcomma, htail, List.append_assoc]

theorem parseJson_jsonDump (d : ReturnResult)
    (h1 : TerminatingDecimal d.current_price) (h2 : TerminatingDecimal d.year_ago_price)
    (h3 : TerminatingDecimal d.year_return) (hdate : '"' ∉ d.date.data) :
    parseJson (jsonDump d) = some (d.current_price, d.year_ago_price, d.year_return, d.date) := by
  have hs1 := splitAt1_append2 ',' (numRepr d.current_price).data
    (not_mem_numRepr (by decide) (by decide) (by decide) _)
  have hs2 := splitAt1_append2 ',' (numRepr d.year_ago_price).data
    (not_mem_numRepr (by decide) (by decide) (by decide) _)
  have hs3 := splitAt1_append2 ',' (numRepr d.year_return).data
    (not_mem_numRepr (by decide) (by decide) (by decide) _)
  have hsq := splitAt1_append2 '"' d.date.data hdate
  have hp1 := parseNum_numRepr _ h1
  have hp2 := parseNum_numRepr _ h2
  have hp3 := parseNum_numRepr _ h3
  unfold parseJson
  rw [jsonDump_data]
  simp [dropStart_append, hs1, hs2, hs3, hsq, hp1, hp2, hp3, mk_data]

/-! ## Claim C5 -/

/-- C5: JSON rendering emits, for a result, exactly one object in the fixed
four-field layout (`current_price`, `year_ago_price`, `year_return`, `date`,
2-space indentation, insertion order) and nothing when no result exists; the
reader that demands exactly that layout recovers exactly the four field
values. The number hypotheses say each value has a terminating decimal
expansion, which every IEEE double has; the date must not contain a quote
character (true of every `YYYY-MM-DD` date). -/
theorem display_json_round_trip (d : ReturnResult)
    (h1 : TerminatingDecimal d.current_price) (h2 : TerminatingDecimal d.year_ago_price)
    (h3 : TerminatingDecimal d.year_return) (hdate : '"' ∉ d.date.data) :
    display_json (some d) = [jsonDump d] ∧
    display_json none = [] ∧
    parseJson (jsonDump d) = some (d.current_price, d.year_ago_price, d.year_return, d.date) :=
  ⟨rfl, rfl, parseJson_jsonDump d h1 h2 h3 hdate⟩

theorem display_json_round_trip_witness :
    display_json (some ⟨mkRat 25 2, mkRat 10 1, mkRat (-1) 4, "2025-10-10"⟩) =
      [jsonDump ⟨mkRat 25 2, mkRat 10 1, mkRat (-1) 4, "2025-10-10"⟩] ∧
    display_json none = [] ∧
    parseJson (jsonDump ⟨mkRat 25 2, mkRat 10 1, mkRat (-1) 4, "2025-10-10"⟩) =
      some (mkRat 25 2, mkRat 10 1, mkRat (-1) 4, "2025-10-10") :=
  display_json_round_trip ⟨mkRat 25 2, mkRat 10 1, mkRat (-1) 4, "2025-10-10"⟩
    (by decide) (by decide) (by decide) (by decide)

/-! ## Character-level lemmas for the text Presenter -/

theorem natDigitsAux_zero (f : Nat) : natDigitsAux f 0 = [] := by
  cases f <;> simp [natDigitsAux]

theorem natDigitsAux_single (f n : Nat) (h1 : 1 ≤ n) (h2 : n < 10) :
    natDigitsAux (f + 1) n = [n] := by
  simp only [natDigitsAux, if_neg (by omega : ¬ n = 0)]
  rw [Nat.div_eq_of_lt h2, natDigitsAux_zero, Nat.mod_eq_of_lt h2]
  rfl

theorem natDigits_single (n : Nat) (h : n < 10) : natDigits n = [n] := by
  unfold natDigits
  by_cases h0 : n = 0
  · simp [h0]
  · rw [if_neg h0]
    obtain ⟨m, rfl⟩ := Nat.exists_eq_succ_of_ne_zero h0
    exact natDigitsAux_single m (m + 1) (by omega) h

theorem natDigits_two (n : Nat) (h1 : 10 ≤ n) (h2 : n < 100) :
    natDigits n = [n / 10, n % 10] := by
  have h0 : n ≠ 0 := by omega
  unfold natDigits
  rw [if_neg h0]
  obtain ⟨m, rfl⟩ := Nat.exists_eq_succ_of_ne_zero h0
  simp only [natDigitsAux, if_neg h0]
  obtain ⟨f, rfl⟩ := Nat.exists_eq_succ_of_ne_zero (by omega : m ≠ 0)
  rw [natDigitsAux_single f _ (by omega) (by omega)]
  rfl

theorem pad2_digits (n : Nat) (hn : n < 100) :
    ∃ a b : Char, (pad2 n).data = [a, b] ∧ a.isDigit = true ∧ b.isDigit = true := by
  unfold pad2
  by_cases h : n < 10
  · refine ⟨'0', digitCh n, ?_, by decide, digitCh_isDigit n⟩
    rw [if_pos h]
    show (("0" : String) ++ natRepr n).data = ['0', digitCh n]
    rw [String.data_append]
    unfold natRepr
    rw [natDigits_single n h]
    rfl
  · refine ⟨digitCh (n / 10), digitCh (n % 10), ?_, digitCh_isDigit _, digitCh_isDigit _⟩
    rw [if_neg h]
    unfold natRepr
    rw [natDigits_two n (by omega) hn]
    rfl

theorem pad2_chars (n : Nat) : ∀ c ∈ (pad2 n).data, c.isDigit = true := by
  intro c hc
  unfold pad2 at hc
  by_cases h : n < 10
  · rw [if_pos h] at hc
    rw [String.data_append] at hc
    rcases List.mem_append.mp hc with h0 | hm
    · have : c = '0' := by simpa using h0
      subst this; decide
    · obtain ⟨d, _, rfl⟩ := List.mem_map.mp hm
      exact digitCh_isDigit d
  · rw [if_neg h] at hc
    obtain ⟨d, _, rfl⟩ := List.mem_map.mp hc
    exact digitCh_isDigit d

theorem fixed2_chars (q : ℚ) :
    ∀ c ∈ (fixed2 q).data, c.isDigit = true ∨ c = '-' ∨ c = '.' := by
  intro c hc
  unfold fixed2 at hc
  simp only [String.data_append, List.mem_append] at hc
  rcases hc with ((hs | hm) | hd) | hp
  · by_cases h : q.num < 0
    · rw [if_pos h] at hs
      right; left
      simpa using hs
    · rw [if_neg h] at hs
      simp at hs
  · obtain ⟨d, _, rfl⟩ := List.mem_map.mp hm
    exact Or.inl (digitCh_isDigit d)
  · right; right
    simpa using hd
  · exact Or.inl (pad2_chars _ c hp)

theorem group3_chars_aux :
    ∀ n (l : List Char), l.length ≤ n → ∀ c ∈ group3 l, c ∈ l ∨ c = ',' := by
  intro n
  induction n with
  | zero =>
    intro l hl c hc
    have : l = [] := List.eq_nil_of_length_eq_zero (by omega)
    subst this
    simp [group3] at hc
  | succ k ih =>
    intro l hl c hc
    rcases l with _ | ⟨a, _ | ⟨b, _ | ⟨c3, _ | ⟨e, rest⟩⟩⟩⟩
    · exact absurd hc (by simp [group3])
    · exact Or.inl hc
    · exact Or.inl hc
    · exact Or.inl hc
    · have hg : group3 (a :: b :: c3 :: e :: rest) =
          a :: b :: c3 :: ',' :: group3 (e :: rest) := rfl
      rw [hg] at hc
      rcases List.mem_cons.mp hc with rfl | hc
      · exact Or.inl (by simp)
      rcases List.mem_cons.mp hc with rfl | hc
      · exact Or.inl (by simp)
      rcases List.mem_cons.mp hc with rfl | hc
      · exact Or.inl (by simp)
      rcases List.mem_cons.mp hc with rfl | hc
      · exact Or.inr rfl
      · rcases ih (e :: rest) (by simp at hl ⊢; omega) c hc with hm | hm
        · exact Or.inl (by simp at hm ⊢; tauto)
        · exact Or.inr hm

theorem group3_chars (l : List Char) : ∀ c ∈ group3 l, c ∈ l ∨ c = ',' :=
  group3_chars_aux l.length l le_rfl

theorem commaDigits_chars (ds : List Char) : ∀ c ∈ commaDigits ds, c ∈ ds ∨ c = ',' := by
  intro c hc
  unfold commaDigits at hc
  rw [List.mem_reverse] at hc
  rcases group3_chars _ c hc with h | h
  · exact Or.inl (List.mem_reverse.mp h)
  · exact Or.inr h

theorem format_price_chars (q : ℚ) :
    ∀ c ∈ (format_price q).data,
      c.isDigit = true ∨ c = '$' ∨ c = '-' ∨ c = ',' ∨ c = '.' := by
  intro c hc
  unfold format_price at hc
  simp only [String.data_append, List.mem_append] at hc
  rcases hc with (((hdol | hs) | hg) | hd) | hp
  · right; left
    simpa using hdol
  · by_cases h : q.num < 0
    · rw [if_pos h] at hs
      right; right; left
      simpa using hs
    · rw [if_neg h] at hs
      simp at hs
  · rcases commaDigits_chars _ c hg with hm | rfl
    · obtain ⟨d, _, rfl⟩ := List.mem_map.mp hm
      exact Or.inl (digitCh_isDigit d)
    · right; right; right; left; rfl
  · right; right; right; right
    simpa using hd
  · exact Or.inl (pad2_chars _ c hp)

/-- The ANSI escape character `ESC` (`0x1b`), the first byte of every ANSI
color code. -/
def escCh : Char := Char.ofNat 27

theorem esc_free_append {a b : String} (ha : escCh ∉ a.data) (hb : escCh ∉ b.data) :
    escCh ∉ (a ++ b).data := by
  rw [String.data_append]
  intro hmem
  rcases List.mem_append.mp hmem with hm | hm
  · exact ha hm
  · exact hb hm

theorem esc_not_natRepr (n : Nat) : escCh ∉ (natRepr n).data := by
  intro hmem
  obtain ⟨d, _, hd⟩ := List.mem_map.mp hmem
  have := digitCh_isDigit d
  rw [hd] at this
  exact absurd this (by decide)

theorem esc_not_pad2 (n : Nat) : escCh ∉ (pad2 n).data := by
  intro hmem
  exact absurd (pad2_chars n _ hmem) (by decide)

theorem esc_not_commaStrMk (n : Nat) :
    escCh ∉ (String.mk (commaDigits ((natDigits n).map digitCh))).data := by
  intro hmem
  rcases commaDigits_chars _ _ hmem with hm | hm
  · obtain ⟨d, _, hd⟩ := List.mem_map.mp hm
    have := digitCh_isDigit d
    rw [hd] at this
    exact absurd this (by decide)
  · exact absurd hm (by decide)

theorem esc_not_fixed2 (q : ℚ) : escCh ∉ (fixed2 q).data := by
  intro hmem
  rcases fixed2_chars q _ hmem with hd | hd | hd
  · exact absurd hd (by decide)
  · exact absurd hd (by decide)
  · exact absurd hd (by decide)

theorem esc_not_format_price (q : ℚ) : escCh ∉ (format_price q).data := by
  intro hmem
  rcases format_price_chars q _ hmem with hd | hd | hd | hd | hd
  · exact absurd hd (by decide)
  · exact absurd hd (by decide)
  · exact absurd hd (by decide)
  · exact absurd hd (by decide)
  · exact absurd hd (by decide)

/-! ## Claim C7 -/

/-- C7: whenever colorize is off or stdout is not a terminal (in particular
whenever output is piped or redirected, whatever the colorize flag), no line
of the text output contains the ANSI escape character: color codes are
emitted only when colorize is enabled and stdout is a TTY. The date string
fed into the output is assumed escape-free (true of every `YYYY-MM-DD`
date). -/
theorem no_ansi_when_plain (d : ReturnResult) (colorize tty : Bool)
    (h : (colorize && tty) = false) (hdate : escCh ∉ d.date.data) :
    ∀ s ∈ display_return (some d) colorize tty, escCh ∉ s.data := by
  intro s hs
  simp [display_return, h] at hs
  rcases hs with rfl | rfl | rfl | rfl | rfl | rfl | rfl | rfl | rfl | rfl <;>
    (repeat' apply esc_free_append) <;>
    first
      | decide
      | exact esc_not_fixed2 _
      | exact esc_not_format_price _
      | exact esc_not_natRepr _
      | exact esc_not_pad2 _
      | exact esc_not_commaStrMk _
      | exact hdate
      | (split <;> decide)

theorem no_ansi_when_plain_witness :
    escCh ∉ (("  As of:              " : String) ++ "2025-10-10").data :=
  no_ansi_when_plain ⟨mkRat 25 2, mkRat 10 1, mkRat (-1) 4, "2025-10-10"⟩ true false
    rfl (by decide) (("  As of:              " : String) ++ "2025-10-10") (by decide)

/-! ## Claim C6 -/

/-- C6: the percent line of the text output carries the bold/color prefix
(green when the return is non-negative and colorized, red when negative and
colorized, empty otherwise), a leading `+` exactly when the return is
non-negative (a negative return shows only the number's own `-` sign), and
the value formatted with exactly two digits after the decimal point,
followed by `%`. -/
theorem percent_line_format (d : ReturnResult) (colorize tty : Bool) :
    (display_return (some d) colorize tty)[3]? =
      some ((if colorize && tty then ansiBold else "")
        ++ (if 0 ≤ d.year_return then (if colorize && tty then ansiGreen else "")
            else (if colorize && tty then ansiRed else ""))
        ++ "  " ++ (if 0 ≤ d.year_return then "+" else "")
        ++ fixed2 d.year_return ++ "%"
        ++ (if colorize && tty then ansiReset else "")) ∧
    (∃ body : String,
      fixed2 d.year_return = (if d.year_return < 0 then "-" else "") ++ body ∧
      ∃ (pre : List Char) (a b : Char), body.data = pre ++ ['.', a, b] ∧ '.' ∉ pre ∧
        a.isDigit = true ∧ b.isDigit = true) := by
  constructor
  · rfl
  · refine ⟨natRepr (round2HalfEven d.year_return / 100) ++ "."
      ++ pad2 (round2HalfEven d.year_return % 100), ?_, ?_⟩
    · show fixed2 d.year_return = _
      unfold fixed2
      simp only [String.append_assoc]
      congr 1
      have hnn := @Rat.num_nonneg d.year_return
      by_cases hq : d.year_return < 0
      · rw [if_pos hq, if_pos (by
          by_contra hge
          exact absurd (hnn.mp (not_lt.mp hge)) (not_le.mpr hq))]
      · rw [if_neg hq, if_neg (fun hn =>
          hq (not_le.mp (fun hge => absurd (hnn.mpr hge) (not_le.mpr hn))))]
    · obtain ⟨a, b, hab, ha, hb⟩ := pad2_digits (round2HalfEven d.year_return % 100)
        (Nat.mod_lt _ (by norm_num))
      refine ⟨(natDigits (round2HalfEven d.year_return / 100)).map digitCh, a, b, ?_, ?_,
        ha, hb⟩
      · show ((natRepr _ ++ "." ++ pad2 _ : String)).data = _
        rw [String.data_append, String.data_append, hab]
        simp [natRepr, List.append_assoc]
      · intro hmem
        obtain ⟨dg, _, hdg⟩ := List.mem_map.mp hmem
        have := digitCh_isDigit dg
        rw [hdg] at this
        exact absurd this (by decide)

/-! ## Claim C8 -/

/-- C8: with current price 5000.00 and year-ago price 4500.00 the computed
return formats to `11.11` and the percent line of the text output reads
`  +11.11%` (plain when not a TTY, bold green with a reset when colorized
on a TTY); with current price 4000.00 it formats to `-11.11` and the line
reads `  -11.11%` (bold red when colorized on a TTY). -/
theorem example_return_formats :
    get_sp500_year_return [⟨"2025-10-10", 5000⟩] [⟨"2024-10-11", 4500⟩, ⟨"2024-10-14", 4600⟩]
      = .ok ⟨5000, 4500, ((5000 : ℚ) - 4500) / 4500 * 100, "2025-10-10"⟩ ∧
    fixed2 (((5000 : ℚ) - 4500) / 4500 * 100) = "11.11" ∧
    (display_return (some ⟨5000, 4500, ((5000 : ℚ) - 4500) / 4500 * 100, "2025-10-10"⟩)
        true false)[3]? = some "  +11.11%" ∧
    (display_return (some ⟨5000, 4500, ((5000 : ℚ) - 4500) / 4500 * 100, "2025-10-10"⟩)
        true true)[3]? = some "\x1b[1m\x1b[92m  +11.11%\x1b[0m" ∧
    get_sp500_year_return [⟨"2025-10-10", 4000⟩] [⟨"2024-10-11", 4500⟩, ⟨"2024-10-14", 4600⟩]
      = .ok ⟨4000, 4500, ((4000 : ℚ) - 4500) / 4500 * 100, "2025-10-10"⟩ ∧
    fixed2 (((4000 : ℚ) - 4500) / 4500 * 100) = "-11.11" ∧
    (display_return (some ⟨4000, 4500, ((4000 : ℚ) - 4500) / 4500 * 100, "2025-10-10"⟩)
        true false)[3]? = some "  -11.11%" ∧
    (display_return (some ⟨4000, 4500, ((4000 : ℚ) - 4500) / 4500 * 100, "2025-10-10"⟩)
        true true)[3]? = some "\x1b[1m\x1b[91m  -11.11%\x1b[0m" := by
  have hp : ((5000 : ℚ) - 4500) / 4500 * 100 = mkRat 100 9 := by
    rw [Rat.mkRat_eq_div]
    norm_num
  have hn : ((4000 : ℚ) - 4500) / 4500 * 100 = mkRat (-100) 9 := by
    rw [Rat.mkRat_eq_div]
    norm_num
  refine ⟨rfl, ?_, ?_, ?_, rfl, ?_, ?_, ?_⟩
  · rw [hp]; decide
  · rw [hp]; decide
  · rw [hp]; decide
  · rw [hn]; decide
  · rw [hn]; decide
  · rw [hn]; decide
